import Mathlib

/-!
Verification of the FLIR image-enhancement pipeline in `469_Final.py`.

A grayscale image is modelled as a structure carrying its dimensions and a
total pixel function (numpy 2-D `uint8` array).  Pixel values are natural
numbers; validity (every value at most 255) is stated as a hypothesis where
a theorem needs it.  The four pipeline stages are translated function by
function from the source.
-/

/-- A grayscale image: height `rows`, width `cols`, and the pixel grid as a
total function (out-of-range positions are irrelevant to every statement,
and for freshly zero-initialised outputs they carry `0`). -/
structure Image where
  rows : Nat
  cols : Nat
  pix : Nat → Nat → Nat

/-- The flattened 3×3 neighbourhood `image[i-1:i+2, j-1:j+2].flatten()`
centred on interior pixel `(i, j)`, in row-major order. -/
def neighborhood (img : Image) (i j : Nat) : List Nat :=
  [img.pix (i - 1) (j - 1), img.pix (i - 1) j, img.pix (i - 1) (j + 1),
   img.pix i (j - 1), img.pix i j, img.pix i (j + 1),
   img.pix (i + 1) (j - 1), img.pix (i + 1) j, img.pix (i + 1) (j + 1)]

/-- `np.min` of a non-empty list of values (the `[]` case is never reached on
a 9-element neighbourhood). -/
def listMin : List Nat → Nat
  | [] => 0
  | x :: xs => xs.foldl Nat.min x

/-- `np.max` of a non-empty list of values. -/
def listMax : List Nat → Nat
  | [] => 0
  | x :: xs => xs.foldl Nat.max x

/-- Insert a value into a sorted list (auxiliary for the median). -/
def insertSorted (x : Nat) : List Nat → List Nat
  | [] => [x]
  | y :: ys => if x ≤ y then x :: y :: ys else y :: insertSorted x ys

/-- Insertion sort, used to compute the median of the 9 neighbourhood
values. -/
def insertionSort : List Nat → List Nat
  | [] => []
  | x :: xs => insertSorted x (insertionSort xs)

/-- `np.median` of a 9-element sample: the middle (index-4) element of the
sorted values. -/
def median9 (l : List Nat) : Nat := (insertionSort l).getD 4 0

/-- `adaptive_median_filter` (lines 8–25): output starts as
`np.zeros_like(image)`; each interior pixel `(i, j)` with
`1 ≤ i < rows - 1` and `1 ≤ j < cols - 1` is written with the neighbourhood
median when the centre exceeds the neighbourhood max or is below the
neighbourhood min, and with the centre value otherwise; all other positions
keep the initial `0`. -/
def adaptive_median_filter (img : Image) : Image :=
  { rows := img.rows
    cols := img.cols
    pix := fun i j =>
      if 1 ≤ i ∧ i + 1 < img.rows ∧ 1 ≤ j ∧ j + 1 < img.cols then
        if img.pix i j > listMax (neighborhood img i j) ∨
            img.pix i j < listMin (neighborhood img i j) then
          median9 (neighborhood img i j)
        else
          img.pix i j
      else 0 }

/-- `cv2.subtract` on `uint8` data: per-pixel saturating subtraction,
clipped below at 0 — exactly truncated subtraction on `Nat`. -/
def cvSubtract (a b : Image) : Image :=
  { rows := a.rows, cols := a.cols, pix := fun i j => a.pix i j - b.pix i j }

/-- `cv2.add` on `uint8` data: per-pixel saturating addition, clipped above
at 255. -/
def cvAdd (a b : Image) : Image :=
  { rows := a.rows, cols := a.cols
    pix := fun i j => Nat.min (a.pix i j + b.pix i j) 255 }

/-- `edge_sharpening` (lines 54–64).  The Gaussian low-pass
(`cv2.GaussianBlur(image, (5, 5), 0)`) is a library call whose fixed-point
convolution is external to this repository, so the stage is stated for an
arbitrary blur `blur : Image → Image`; every theorem below holds for every
such blur, hence in particular for the 5×5 Gaussian. -/
def edge_sharpening (blur : Image → Image) (img : Image) : Image :=
  cvAdd img (cvSubtract img (blur img))

/-- `optimize_palette` (lines 67–68): `cv2.bitwise_not` on `uint8`, i.e.
`255 - v` on each pixel. -/
def optimize_palette (img : Image) : Image :=
  { rows := img.rows, cols := img.cols, pix := fun i j => 255 - img.pix i j }

/-- The uniform 5×5 image of constant value 128 (end-to-end scenario). -/
def img5 : Image := { rows := 5, cols := 5, pix := fun _ _ => 128 }

/-- The 1×1 image whose single pixel is 0 (degenerate histogram case). -/
def oneZero : Image := { rows := 1, cols := 1, pix := fun _ _ => 0 }

lemma foldl_min_le_init : ∀ (l : List Nat) (a : Nat), l.foldl Nat.min a ≤ a := by
  intro l
  induction l with
  | nil => intro a; exact Nat.le_refl a
  | cons x xs ih =>
    intro a
    exact Nat.le_trans (ih (Nat.min a x)) (Nat.min_le_left a x)

lemma foldl_min_le_mem {x : Nat} :
    ∀ (l : List Nat) (a : Nat), x ∈ l → l.foldl Nat.min a ≤ x := by
  intro l
  induction l with
  | nil => intro a h; cases h
  | cons y ys ih =>
    intro a h
    rcases List.mem_cons.mp h with h1 | h2
    · subst h1
      exact Nat.le_trans (foldl_min_le_init ys (Nat.min a x)) (Nat.min_le_right a x)
    · exact ih (Nat.min a y) h2

lemma init_le_foldl_max : ∀ (l : List Nat) (a : Nat), a ≤ l.foldl Nat.max a := by
  intro l
  induction l with
  | nil => intro a; exact Nat.le_refl a
  | cons x xs ih =>
    intro a
    exact Nat.le_trans (Nat.le_max_left a x) (ih (Nat.max a x))

lemma mem_le_foldl_max {x : Nat} :
    ∀ (l : List Nat) (a : Nat), x ∈ l → x ≤ l.foldl Nat.max a := by
  intro l
  induction l with
  | nil => intro a h; cases h
  | cons y ys ih =>
    intro a h
    rcases List.mem_cons.mp h with h1 | h2
    · subst h1
      exact Nat.le_trans (Nat.le_max_right a x) (init_le_foldl_max ys (Nat.max a x))
    · exact ih (Nat.max a y) h2

lemma listMin_le_of_mem {l : List Nat} {x : Nat} (h : x ∈ l) : listMin l ≤ x := by
  cases l with
  | nil => cases h
  | cons y ys =>
    rcases List.mem_cons.mp h with h1 | h2
    · subst h1; exact foldl_min_le_init ys x
    · exact foldl_min_le_mem ys y h2

lemma le_listMax_of_mem {l : List Nat} {x : Nat} (h : x ∈ l) : x ≤ listMax l := by
  cases l with
  | nil => cases h
  | cons y ys =>
    rcases List.mem_cons.mp h with h1 | h2
    · subst h1; exact init_le_foldl_max ys x
    · exact mem_le_foldl_max ys y h2

lemma center_mem_neighborhood (img : Image) (i j : Nat) :
    img.pix i j ∈ neighborhood img i j := by
  simp [neighborhood]

/-- `cv2.calcHist([image], [0], None, [256], [0, 256])` flattened: the count
of pixels of the image whose value equals `v`. -/
def histogram (img : Image) (v : Nat) : Nat :=
  (((List.range img.rows).map
      (fun i => ((List.range img.cols).filter (fun j => img.pix i j == v)).length)).sum)

/-- Whether bin `i` of the histogram is a strict local peak:
`hist[i-1] < hist[i] and hist[i] > hist[i+1]` (line 34). -/
def isPeak (img : Image) (i : Nat) : Bool :=
  decide (histogram img (i - 1) < histogram img i ∧
          histogram img i > histogram img (i + 1))

/-- The plateau threshold (lines 32–37): accumulate the index of every strict
local peak over `for i in range(1, 255)` and take `int(threshold / 2)` —
floor division by 2 on the non-negative accumulated sum. -/
def thresholdOf (img : Image) : Nat :=
  ((List.range' 1 254).foldl
      (fun acc i => if isPeak img i then acc + i else acc) 0) / 2

/-- The plateau-clipped histogram (lines 39–44): each bin whose count exceeds
the threshold is clipped to the threshold, all other bins keep their count. -/
def transformedHist (img : Image) (i : Nat) : Nat :=
  if histogram img i > thresholdOf img then thresholdOf img else histogram img i

/-- `Ft = np.cumsum(transformed_hist)` (line 46): the cumulative sum of the
clipped histogram up to and including bin `i`. -/
def Ft (img : Image) (i : Nat) : Nat :=
  ((List.range (i + 1)).map (transformedHist img)).sum

/-- `max_Ft = Ft[-1]` (line 47): the grand total of the clipped histogram. -/
def maxFt (img : Image) : Nat := Ft img 255

/-- `plateau_histogram` (lines 28–51), returning the remap table
`Dt = (255 * Ft) // max_Ft`.  When `max_Ft = 0` the numpy float floor
division by zero yields a table of NaN, unusable for any later `uint8`
pixel assignment; that failing table is modelled as `none`. -/
def plateau_histogram (img : Image) : Option (Nat → Nat) :=
  if maxFt img = 0 then none
  else some (fun i => 255 * Ft img i / maxFt img)

/-- One iteration of the enhancement loop in `process_image` (line 82): the
full remap table is recomputed from the filtered image and then indexed at
this pixel's value.  `none` propagates the NaN table: storing its entry into
the `uint8` output array is the point where the run fails. -/
def refPixel (img : Image) (i j : Nat) : Option Nat :=
  (plateau_histogram img).map (fun Dt => Dt (img.pix i j))

/-- The reference enhancement of `process_image` (lines 79–82): a
zero-initialised output, then one `refPixel` computation and store per
in-range pixel.  The whole loop succeeds exactly when every per-pixel store
succeeds (vacuously so on an image with no pixels). -/
def enhancedRef (img : Image) : Option Image :=
  if ∀ i, i < img.rows → ∀ j, j < img.cols → (refPixel img i j).isSome then
    some { rows := img.rows, cols := img.cols
           pix := fun i j =>
             if i < img.rows ∧ j < img.cols then (refPixel img i j).getD 0
             else 0 }
  else none

/-- Modelled from the spec: the hoisted enhancement — compute the remap
table once per image, then perform one lookup per in-range pixel of the
zero-initialised output.  With a NaN table (`none`) the loop fails at its
first store, so it succeeds only when the image has no pixels, in which
case the output is the untouched zero image. -/
def enhancedHoisted (img : Image) : Option Image :=
  match plateau_histogram img with
  | some Dt =>
      some { rows := img.rows, cols := img.cols
             pix := fun i j =>
               if i < img.rows ∧ j < img.cols then Dt (img.pix i j)
               else 0 }
  | none =>
      if img.rows = 0 ∨ img.cols = 0 then
        some { rows := img.rows, cols := img.cols, pix := fun _ _ => 0 }
      else none

/-- C1: every interior pixel of `adaptive_median_filter` equals the input
there, and the replace-with-median branch is never taken (the centre is one
of the 9 neighbourhood values, so it can be neither strictly above the
neighbourhood max nor strictly below the neighbourhood min); every
in-range border pixel of the output is exactly 0. -/
theorem adaptive_median_interior_copy_border_zero (img : Image) (i j : Nat) :
    (1 ≤ i → i + 1 < img.rows → 1 ≤ j → j + 1 < img.cols →
      (adaptive_median_filter img).pix i j = img.pix i j ∧
      ¬ (img.pix i j > listMax (neighborhood img i j) ∨
         img.pix i j < listMin (neighborhood img i j))) ∧
    (i < img.rows → j < img.cols →
      (i = 0 ∨ i = img.rows - 1 ∨ j = 0 ∨ j = img.cols - 1) →
      (adaptive_median_filter img).pix i j = 0) := by
  constructor
  · intro h1 h2 h3 h4
    have hc := center_mem_neighborhood img i j
    have hmin := listMin_le_of_mem hc
    have hmax := le_listMax_of_mem hc
    have hnot : ¬ (img.pix i j > listMax (neighborhood img i j) ∨
        img.pix i j < listMin (neighborhood img i j)) := by omega
    refine ⟨?_, hnot⟩
    simp only [adaptive_median_filter]
    rw [if_pos ⟨h1, h2, h3, h4⟩, if_neg hnot]
  · intro hi hj hb
    simp only [adaptive_median_filter]
    rw [if_neg]
    omega

/-- Witness for C1 at the uniform 5×5 image: the centre pixel (2,2) is
copied and its replacement branch is untaken; the border pixel (0,4) is 0. -/
theorem adaptive_median_interior_copy_border_zero_witness :
    ((adaptive_median_filter img5).pix 2 2 = img5.pix 2 2 ∧
      ¬ (img5.pix 2 2 > listMax (neighborhood img5 2 2) ∨
         img5.pix 2 2 < listMin (neighborhood img5 2 2))) ∧
    (adaptive_median_filter img5).pix 0 4 = 0 :=
  ⟨(adaptive_median_interior_copy_border_zero img5 2 2).1
      (by decide) (by decide) (by decide) (by decide),
   (adaptive_median_interior_copy_border_zero img5 0 4).2
      (by decide) (by decide) (Or.inl rfl)⟩

/-- C10: on an image with fewer than 3 rows or fewer than 3 columns the
interior loops of `adaptive_median_filter` are empty, so the result is the
zero-initialised image of the same shape. -/
theorem adaptive_median_small_image_zero (img : Image)
    (h : img.rows < 3 ∨ img.cols < 3) :
    (adaptive_median_filter img).rows = img.rows ∧
    (adaptive_median_filter img).cols = img.cols ∧
    ∀ i j, (adaptive_median_filter img).pix i j = 0 := by
  refine ⟨rfl, rfl, fun i j => ?_⟩
  simp only [adaptive_median_filter]
  rw [if_neg]
  omega

/-- Witness for C10: a 2×5 image of constant value 7 filters to all zeros. -/
theorem adaptive_median_small_image_zero_witness :
    (adaptive_median_filter { rows := 2, cols := 5, pix := fun _ _ => 7 }).rows = 2 ∧
    (adaptive_median_filter { rows := 2, cols := 5, pix := fun _ _ => 7 }).cols = 5 ∧
    ∀ i j,
      (adaptive_median_filter { rows := 2, cols := 5, pix := fun _ _ => 7 }).pix i j = 0 :=
  adaptive_median_small_image_zero { rows := 2, cols := 5, pix := fun _ _ => 7 }
    (Or.inl (by decide))

/-- C6: each pixel of `edge_sharpening` is the saturating sum of the
original pixel and the saturating difference between the original and the
blurred pixel (subtraction clipped below at 0, addition clipped above at
255), and therefore lies in [0, 255] — for every blur function. -/
theorem edge_sharpening_saturating (blur : Image → Image) (img : Image)
    (i j : Nat) :
    (edge_sharpening blur img).pix i j =
      Nat.min (img.pix i j + (img.pix i j - (blur img).pix i j)) 255 ∧
    (edge_sharpening blur img).pix i j ≤ 255 :=
  ⟨rfl, Nat.min_le_right _ _⟩

/-- C9: for valid pixel values (at most 255), edge sharpening never darkens:
the output pixel is at least the input pixel, because the added difference
is non-negative and the input never exceeds the saturation ceiling. -/
theorem edge_sharpening_no_darken (blur : Image → Image) (img : Image)
    (i j : Nat) (h : img.pix i j ≤ 255) :
    img.pix i j ≤ (edge_sharpening blur img).pix i j :=
  Nat.le_min.mpr ⟨Nat.le_add_right _ _, h⟩

/-- Witness for C9 at the uniform 5×5 image with the identity blur. -/
theorem edge_sharpening_no_darken_witness :
    img5.pix 0 0 ≤ (edge_sharpening (fun a => a) img5).pix 0 0 :=
  edge_sharpening_no_darken (fun a => a) img5 0 0 (by decide)

/-- C7: `optimize_palette` maps every pixel `v` to `255 - v`, and for valid
pixel values (at most 255) applying it twice restores the pixel. -/
theorem optimize_palette_invert_involutive (img : Image) (i j : Nat) :
    (optimize_palette img).pix i j = 255 - img.pix i j ∧
    (img.pix i j ≤ 255 →
      (optimize_palette (optimize_palette img)).pix i j = img.pix i j) :=
  ⟨rfl, fun h => Nat.sub_sub_self h⟩

/-- Witness for C7 at the uniform 5×5 image. -/
theorem optimize_palette_invert_involutive_witness :
    (optimize_palette img5).pix 1 3 = 255 - img5.pix 1 3 ∧
    (optimize_palette (optimize_palette img5)).pix 1 3 = img5.pix 1 3 :=
  ⟨(optimize_palette_invert_involutive img5 1 3).1,
   (optimize_palette_invert_involutive img5 1 3).2 (by decide)⟩

lemma foldl_if_add (p : Nat → Bool) :
    ∀ (l : List Nat) (acc : Nat),
      l.foldl (fun a i => if p i then a + i else a) acc =
        acc + (l.map (fun i => if p i then i else 0)).sum := by
  intro l
  induction l with
  | nil => intro acc; simp
  | cons x xs ih =>
    intro acc
    cases h : p x <;> simp [List.foldl_cons, h, ih]
    omega

lemma Ft_succ (img : Image) (n : Nat) :
    Ft img (n + 1) = Ft img n + transformedHist img (n + 1) := by
  simp [Ft, List.range_succ]
  omega

lemma Ft_finset (img : Image) (n : Nat) :
    Ft img n = ∑ k in Finset.range (n + 1), transformedHist img k := by
  induction n with
  | zero => simp [Ft, List.range_succ]
  | succ n ih => rw [Ft_succ, ih]; simp [Finset.sum_range_succ]

lemma Ft_mono (img : Image) {m n : Nat} (h : m ≤ n) : Ft img m ≤ Ft img n := by
  induction n, h using Nat.le_induction with
  | base => exact Nat.le_refl _
  | succ n hmn ih => rw [Ft_succ]; exact Nat.le_trans ih (Nat.le_add_right _ _)

lemma exists_mem_ne_zero_of_sum_ne_zero :
    ∀ (l : List Nat), l.sum ≠ 0 → ∃ x ∈ l, x ≠ 0 := by
  intro l
  induction l with
  | nil => intro h; simp at h
  | cons x xs ih =>
    intro h
    by_cases hx : x = 0
    · subst hx
      simp only [List.sum_cons, Nat.zero_add] at h
      obtain ⟨y, hy, hy0⟩ := ih h
      exact ⟨y, List.mem_cons_of_mem 0 hy, hy0⟩
    · exact ⟨x, List.mem_cons_self x xs, hx⟩

set_option maxRecDepth 100000

set_option maxHeartbeats 2000000 in
lemma sum_Icc_eq_map_range' (f : Nat → Nat) :
    (∑ i in Finset.Icc 1 254, f i) = ((List.range' 1 254).map f).sum := rfl

lemma threshold_sum_repr (img : Image) :
    thresholdOf img =
      (((List.range' 1 254).map (fun i => if isPeak img i then i else 0)).sum) / 2 := by
  rw [thresholdOf, foldl_if_add]
  rw [Nat.zero_add]

lemma hist_pos_of_isPeak (img : Image) (i : Nat) (h : isPeak img i = true) :
    0 < histogram img i := by
  simp only [isPeak, decide_eq_true_eq] at h
  omega

lemma transformed_zero_of_threshold_zero (img : Image)
    (h : thresholdOf img = 0) (k : Nat) : transformedHist img k = 0 := by
  rw [transformedHist, h]
  split_ifs with hk
  · rfl
  · omega

lemma maxFt_zero_of_threshold_zero (img : Image)
    (h : thresholdOf img = 0) : maxFt img = 0 := by
  rw [maxFt, Ft_finset]
  exact Finset.sum_eq_zero fun k _ => transformed_zero_of_threshold_zero img h k

lemma maxFt_ne_zero_of_threshold_ne_zero (img : Image)
    (h : thresholdOf img ≠ 0) : maxFt img ≠ 0 := by
  have hS : (((List.range' 1 254).map (fun i => if isPeak img i then i else 0)).sum) ≠ 0 := by
    intro hs
    exact h (by rw [threshold_sum_repr, hs])
  obtain ⟨x, hxmem, hx0⟩ := exists_mem_ne_zero_of_sum_ne_zero _ hS
  obtain ⟨i, himem, hfi⟩ := List.mem_map.mp hxmem
  have hi : 1 ≤ i ∧ i < 1 + 254 := List.mem_range'_1.mp himem
  have hpk : isPeak img i = true := by
    cases hb : isPeak img i
    · rw [hb] at hfi; simp at hfi; omega
    · rfl
  have hhist : 0 < histogram img i := hist_pos_of_isPeak img i hpk
  have htr : 0 < transformedHist img i := by
    rw [transformedHist]
    split_ifs with hgt
    · exact Nat.pos_of_ne_zero h
    · exact hhist
  have hle : transformedHist img i ≤ maxFt img := by
    rw [maxFt, Ft_finset]
    exact Finset.single_le_sum (fun k _ => Nat.zero_le _)
      (Finset.mem_range.mpr (by omega))
  omega

/-- C5: the plateau threshold is the integer half of the sum of all bin
indices in 1..254 at which the histogram has a strict local peak
(`hist[i-1] < hist[i]` and `hist[i] > hist[i+1]`); the sum ranges over
`Finset.Icc 1 254` only, so bins 0 and 255 are never counted as peaks. -/
theorem thresholdOf_eq_half_peak_index_sum (img : Image) :
    thresholdOf img =
      (∑ i in Finset.Icc 1 254,
         if histogram img (i - 1) < histogram img i ∧
            histogram img i > histogram img (i + 1) then i else 0) / 2 := by
  have hfg : (fun i => if isPeak img i then i else 0) =
      (fun i => if histogram img (i - 1) < histogram img i ∧
          histogram img i > histogram img (i + 1) then i else (0 : Nat)) := by
    funext i
    simp [isPeak]
  rw [threshold_sum_repr img, sum_Icc_eq_map_range', hfg]

/-- C2 (amended): the grand total `Ft[255]` of the cumulative clipped
histogram is zero exactly when the computed plateau threshold is zero — so
the final division `255 * Ft[i] / Ft[255]` divides by zero precisely on
threshold-zero images, which include non-empty ones (a non-zero threshold
always forces a positive clipped peak bin, while a zero threshold clips
every occupied bin to zero). -/
theorem maxFt_eq_zero_iff_threshold_eq_zero (img : Image) :
    maxFt img = 0 ↔ thresholdOf img = 0 := by
  constructor
  · intro h
    by_contra hthr
    exact maxFt_ne_zero_of_threshold_ne_zero img hthr h
  · exact maxFt_zero_of_threshold_zero img

/-- Witness for C2's amended claim at the 1×1 zero image, whose threshold
is zero. -/
theorem maxFt_eq_zero_iff_threshold_eq_zero_witness :
    maxFt oneZero = 0 :=
  (maxFt_eq_zero_iff_threshold_eq_zero oneZero).mpr (by decide)

/-- Counterexample to C2 as stated: the 1×1 image with its single pixel 0
has one pixel, yet its clipped-histogram grand total `Ft[255]` is 0 (no
histogram bin is a strict local peak, so the threshold is 0 and every
occupied bin is clipped to 0), and the remap-table computation is exactly
the failing division by zero, modelled by `plateau_histogram` returning
`none`. -/
theorem oneZero_nonempty_but_maxFt_zero :
    oneZero.rows * oneZero.cols = 1 ∧ maxFt oneZero = 0 ∧
    plateau_histogram oneZero = none := by
  refine ⟨rfl, ?_, ?_⟩
  · exact maxFt_zero_of_threshold_zero oneZero (by decide)
  · rw [plateau_histogram, if_pos (maxFt_zero_of_threshold_zero oneZero (by decide))]

/-- C4: whenever `plateau_histogram` produces a remap table (the division
is not by zero), every entry of the table is at most 255 (and trivially at
least 0 on `Nat`), and the table is monotonically non-decreasing in the bin
index, because `Ft` is a cumulative sum of non-negative clipped counts. -/
theorem plateau_table_bounded_monotone (img : Image) (Dt : Nat → Nat)
    (h : plateau_histogram img = some Dt) :
    (∀ i, i ≤ 255 → Dt i ≤ 255) ∧ (∀ i, i ≤ 254 → Dt i ≤ Dt (i + 1)) := by
  rw [plateau_histogram] at h
  split_ifs at h with hz
  have hDt : Dt = fun i => 255 * Ft img i / maxFt img := (Option.some.inj h).symm
  subst hDt
  have hpos : 0 < maxFt img := Nat.pos_of_ne_zero hz
  constructor
  · intro i hi
    have hle : Ft img i ≤ maxFt img := Ft_mono img hi
    calc 255 * Ft img i / maxFt img
        ≤ 255 * maxFt img / maxFt img :=
          Nat.div_le_div_right (Nat.mul_le_mul_left 255 hle)
      _ = 255 := Nat.mul_div_cancel 255 hpos
  · intro i _
    exact Nat.div_le_div_right
      (Nat.mul_le_mul_left 255 (Ft_mono img (Nat.le_succ i)))

lemma histogram_img5 (v : Nat) : histogram img5 v = if v = 128 then 25 else 0 := by
  by_cases h : v = 128
  · subst h; decide
  · simp [histogram, img5, h, Ne.symm h]

lemma threshold_img5 : thresholdOf img5 = 64 := by decide

lemma transformed_img5 (v : Nat) :
    transformedHist img5 v = if v = 128 then 25 else 0 := by
  rw [transformedHist, threshold_img5, histogram_img5]
  by_cases h : v = 128 <;> simp [h]

lemma Ft_img5 (n : Nat) : Ft img5 n = if n < 128 then 0 else 25 := by
  induction n with
  | zero =>
    have h0 : Ft img5 0 = transformedHist img5 0 := by
      simp [Ft, List.range_succ]
    rw [h0, transformed_img5]
    norm_num
  | succ n ih =>
    rw [Ft_succ, ih, transformed_img5]
    split_ifs <;> omega

lemma maxFt_img5 : maxFt img5 = 25 := by
  rw [maxFt, Ft_img5]
  norm_num

lemma plateau_img5 :
    plateau_histogram img5 = some (fun i => 255 * Ft img5 i / maxFt img5) := by
  rw [plateau_histogram, if_neg]
  rw [maxFt_img5]
  omega

/-- Witness for C4 at the uniform 5×5 image, whose remap table exists. -/
theorem plateau_table_bounded_monotone_witness :
    (∀ i, i ≤ 255 → 255 * Ft img5 i / maxFt img5 ≤ 255) ∧
    (∀ i, i ≤ 254 → 255 * Ft img5 i / maxFt img5 ≤ 255 * Ft img5 (i + 1) / maxFt img5) :=
  plateau_table_bounded_monotone img5
    (fun i => 255 * Ft img5 i / maxFt img5) plateau_img5

/-- Counterexample to C3 as stated: on the uniform 5×5 image of value 128,
bin 128 (count 25, both neighbours 0) is a strict local peak, so the
computed threshold is `int(128 / 2) = 64`, not 0, and the single occupied
bin is not clipped to 0 — it keeps its count 25, which does not exceed the
threshold. -/
theorem img5_threshold_not_zero :
    thresholdOf img5 ≠ 0 ∧ transformedHist img5 128 ≠ 0 := by
  constructor
  · rw [threshold_img5]; omega
  · rw [transformed_img5]; norm_num

/-- C3 (amended): on the uniform 5×5 image of value 128 the adaptive
median filter leaves the 3×3 interior at 128 and the border at 0; the
plateau stage computes threshold 64 (bin 128 is the single strict peak and
`int(128 / 2) = 64`), leaves the single occupied bin at its count 25 (25
does not exceed 64, so no clipping occurs), yields `Ft` equal to 0 below
bin 128 and to the total pixel count 25 from bin 128 onward, and produces
a remap table mapping 128 to 255 and every value 0..127 to 0. -/
theorem img5_end_to_end_scenario :
    (∀ i, i < 5 → ∀ j, j < 5 →
      (adaptive_median_filter img5).pix i j =
        if 1 ≤ i ∧ i ≤ 3 ∧ 1 ≤ j ∧ j ≤ 3 then 128 else 0) ∧
    thresholdOf img5 = 64 ∧
    histogram img5 128 = 25 ∧
    transformedHist img5 128 = 25 ∧
    (∀ i, i < 128 → Ft img5 i = 0) ∧
    (∀ i, 128 ≤ i → i ≤ 255 → Ft img5 i = 25) ∧
    plateau_histogram img5 = some (fun i => 255 * Ft img5 i / maxFt img5) ∧
    255 * Ft img5 128 / maxFt img5 = 255 ∧
    (∀ i, i < 128 → 255 * Ft img5 i / maxFt img5 = 0) := by
  refine ⟨by decide, threshold_img5, ?_, ?_, ?_, ?_, plateau_img5, ?_, ?_⟩
  · rw [histogram_img5]; norm_num
  · rw [transformed_img5]; norm_num
  · intro i hi
    rw [Ft_img5]
    exact if_pos hi
  · intro i hi _
    rw [Ft_img5, if_neg]
    omega
  · rw [Ft_img5, maxFt_img5]
    norm_num
  · intro i hi
    rw [Ft_img5, maxFt_img5, if_pos hi]

/-- Witness for C3's amended claim: concrete instances of its bounded
statements — the centre pixel survives filtering, `Ft` vanishes at bin 0
and the remap table sends value 0 to 0. -/
theorem img5_end_to_end_scenario_witness :
    (adaptive_median_filter img5).pix 2 2 =
      (if 1 ≤ 2 ∧ 2 ≤ 3 ∧ 1 ≤ 2 ∧ 2 ≤ 3 then 128 else 0) ∧
    Ft img5 0 = 0 ∧
    255 * Ft img5 0 / maxFt img5 = 0 :=
  ⟨(img5_end_to_end_scenario.1 2 (by decide) 2 (by decide)),
   img5_end_to_end_scenario.2.2.2.2.1 0 (by decide),
   (img5_end_to_end_scenario.2.2.2.2.2.2.2.2 0 (by decide))⟩

/-- C8: the reference per-pixel behaviour of `process_image` — recomputing
the full `plateau_histogram` remap table for every pixel and indexing it at
that pixel's value — produces exactly the same result as computing the
table once for the whole image and performing one lookup per pixel;
hoisting the table computation out of the pixel loop is an equivalence,
not a behaviour change, including the failing (division-by-zero) case. -/
theorem enhancedRef_eq_enhancedHoisted (img : Image) :
    enhancedRef img = enhancedHoisted img := by
  rw [enhancedRef, enhancedHoisted]
  cases h : plateau_histogram img with
  | some Dt =>
    have hall : ∀ i, i < img.rows → ∀ j, j < img.cols →
        (refPixel img i j).isSome := by
      intro i _ j _
      rw [refPixel, h]
      rfl
    have hfun : (fun i j =>
        if i < img.rows ∧ j < img.cols then (refPixel img i j).getD 0 else 0) =
        (fun i j =>
          if i < img.rows ∧ j < img.cols then Dt (img.pix i j) else 0) := by
      funext i j
      rw [refPixel, h]
      rfl
    rw [if_pos hall, hfun]
  | none =>
    by_cases hz : img.rows = 0 ∨ img.cols = 0
    · have hall : ∀ i, i < img.rows → ∀ j, j < img.cols →
          (refPixel img i j).isSome := by
        intro i hi j hj
        rcases hz with hz | hz <;> omega
      have hfun : (fun i j =>
          if i < img.rows ∧ j < img.cols then (refPixel img i j).getD 0 else 0) =
          (fun _ _ => (0 : Nat)) := by
        funext i j
        rw [refPixel, h]
        exact ite_self 0
      rw [if_pos hall, if_pos hz, hfun]
    · have hnall : ¬ (∀ i, i < img.rows → ∀ j, j < img.cols →
          (refPixel img i j).isSome) := by
        intro hall
        have h00 := hall 0 (by omega) 0 (by omega)
        rw [refPixel, h] at h00
        simp at h00
      rw [if_neg hnall, if_neg hz]
